import Mathlib

/-!
Verification of the worm-buster npm supply-chain scanner.

The development shallowly embeds the detection engine of the scanner:
the IOC database loader (`loadInfectedPackages`, `addPackage`), the
filesystem walks (`findPackageFiles`, `findMaliciousArtifacts`) over an
explicit directory-tree datatype, and the dependency analyzer
(`checkPackageJson`, `checkPackageLock`, `checkInstalledPackage`,
`extractVersion`).  JavaScript strings become Lean `String`s, JS objects
become association lists in declaration order, `Map`/`Set` become
insertion-ordered association lists, and file reads/JSON parses become
explicit `Except`/`Option` parameters.  All definitions are computable
and structural except the directory walks, which recurse over a nested
inductive tree.
-/

namespace WormBuster

/-! ## String helpers mirroring the JavaScript primitives used by the source -/

/-- Whitespace as trimmed by JavaScript `String.prototype.trim`:
ASCII whitespace, NBSP, BOM, the Unicode line separators and the full
Space_Separator category (U+1680, U+2000 through U+200A, U+202F,
U+205F, U+3000). -/
def jsSpace (c : Char) : Bool :=
  c == ' ' || c == '\t' || c == '\n' || c == '\r' || c == '\x0b' || c == '\x0c' ||
  c == '\u00A0' || c == '\uFEFF' || c == '\u2028' || c == '\u2029' ||
  c == '\u1680' || c == '\u2000' || c == '\u2001' || c == '\u2002' ||
  c == '\u2003' || c == '\u2004' || c == '\u2005' || c == '\u2006' ||
  c == '\u2007' || c == '\u2008' || c == '\u2009' || c == '\u200A' ||
  c == '\u202F' || c == '\u205F' || c == '\u3000'

/-- JavaScript `s.trim()`: drop leading and trailing whitespace. -/
def jsTrim (s : String) : String :=
  ⟨((s.data.dropWhile jsSpace).reverse.dropWhile jsSpace).reverse⟩

/-- Character membership in a character list. -/
def listHasChar : List Char → Char → Bool
  | [], _ => false
  | x :: xs, c => x == c || listHasChar xs c

/-- JavaScript `s.includes(c)` for a single-character needle. -/
def strContainsChar (s : String) (c : Char) : Bool := listHasChar s.data c

/-- Substring containment on character lists. -/
def listContainsSub : List Char → List Char → Bool
  | [], pat => pat.isEmpty
  | x :: xs, pat => pat.isPrefixOf (x :: xs) || listContainsSub xs pat

/-- JavaScript `s.includes(pat)` for a string needle. -/
def strContainsSub (s pat : String) : Bool := listContainsSub s.data pat.data

/-- JavaScript `s.startsWith(pre)`. -/
def strStartsWith (s pre : String) : Bool := pre.data.isPrefixOf s.data

/-- JavaScript `s.endsWith(suf)`. -/
def strEndsWith (s suf : String) : Bool := suf.data.isSuffixOf s.data

/-- Node `path.join` on POSIX for the simple two-component case used
by the traversals. -/
def pathJoin (a b : String) : String := a ++ "/" ++ b

/-- JavaScript `s.split(c)` for a single-character separator. -/
def splitOnChar (c : Char) : List Char → List (List Char)
  | [] => [[]]
  | x :: xs =>
    let r := splitOnChar c xs
    if x = c then [] :: r else (x :: r.headD []) :: r.tail

/-- Fuel-driven worker for splitting on a (non-empty) substring pattern;
the fuel is an upper bound on the number of characters consumed. -/
def splitOnSubF (pat : List Char) : Nat → List Char → List (List Char)
  | _, [] => [[]]
  | 0, l => [l]
  | fuel + 1, x :: xs =>
    if pat.isPrefixOf (x :: xs) then
      [] :: splitOnSubF pat fuel ((x :: xs).drop pat.length)
    else
      let r := splitOnSubF pat fuel xs
      (x :: r.headD []) :: r.tail

/-- JavaScript `s.split(pat)` for a non-empty string separator. -/
def splitOnSub (l pat : List Char) : List (List Char) := splitOnSubF pat l.length l

/-- JavaScript `s.replace(pat, '')` for a plain-string pattern: remove
the first occurrence of `pat` only. -/
def removeFirstOcc : List Char → List Char → List Char
  | [], _ => []
  | x :: xs, pat =>
    if pat.isPrefixOf (x :: xs) then (x :: xs).drop pat.length
    else x :: removeFirstOcc xs pat

/-! ## Configuration constants (src/lib/config.js) -/

/-- `MALICIOUS_ARTIFACTS` from config.js. -/
def MALICIOUS_ARTIFACTS : List String :=
  [".github/workflows/discussion.yaml",
   ".github/workflows/discussion.yml",
   "cloud.json",
   "contents.json",
   "environment.json",
   "truffleSecrets.json",
   "actionsSecrets.json",
   "setup_bun.js",
   "bun_environment.js"]

/-- `DEPENDENCY_TYPES` from config.js. -/
def DEPENDENCY_TYPES : List String :=
  ["dependencies", "devDependencies", "peerDependencies", "optionalDependencies"]

/-- `SUSPICIOUS_SCRIPTS` from config.js. -/
def SUSPICIOUS_SCRIPTS : List String := ["preinstall", "postinstall", "prepare"]

/-- `SUSPICIOUS_SCRIPT_PATTERNS` from config.js. -/
def SUSPICIOUS_SCRIPT_PATTERNS : List String := ["bun", "setup_", "curl", "wget", "eval"]

/-- The test `SUSPICIOUS_WORKFLOW_PATTERN.test(name)` for the regex
`formatter_\d+\.ya?ml$`: the name must end in `formatter_`, one or more
ASCII digits, and `.yml` or `.yaml`.  Implemented on the reversed
character list; because `_` is not a digit, taking the maximal digit run
is equivalent to the regex search. -/
def suspiciousWorkflowTest (name : String) : Bool :=
  let rs := name.data.reverse
  let check := fun (stemRev : List Char) =>
    !(stemRev.takeWhile Char.isDigit).isEmpty &&
      ("formatter_".data.reverse.isPrefixOf (stemRev.dropWhile Char.isDigit))
  if ".yaml".data.reverse.isPrefixOf rs then check (rs.drop 5)
  else if ".yml".data.reverse.isPrefixOf rs then check (rs.drop 4)
  else false

/-! ## Data model -/

/-- The in-memory IOC database: JavaScript `Map<string, Set<string>>`
as an insertion-ordered association list of insertion-ordered
duplicate-free version lists. -/
abbrev IOCDb := List (String × List String)

/-- `Map.get` on the IOC database (`Map.has` is `(dbLookup db n).isSome`). -/
def dbLookup : IOCDb → String → Option (List String)
  | [], _ => none
  | (m, vs) :: rest, n => if m = n then some vs else dbLookup rest n

/-- A classified detection result (src/lib analyzer/scanner finding
records); absent optional fields are `none`. -/
structure Finding where
  type : String
  severity : String
  package : Option String := none
  version : Option String := none
  declaredVersion : Option String := none
  depType : Option String := none
  file : Option String := none
  path : Option String := none
  artifact : Option String := none
  script : Option String := none
  content : Option String := none
  note : Option String := none
  infectedVersions : Option (List String) := none
  installed : Option Bool := none
  message : Option String := none
deriving DecidableEq

/-- A `{ artifact, path }` record pushed by `findMaliciousArtifacts`. -/
structure ArtifactFinding where
  artifact : String
  path : String
deriving DecidableEq

/-- A `{ type, path }` record pushed by `findPackageFiles`. -/
structure ScanItem where
  type : String
  path : String
deriving DecidableEq

/-- A directory tree standing for the scanned filesystem: an entry is a
plain file or a directory with its child entries in `readdirSync`
order. -/
inductive FSTree where
  | file : String → FSTree
  | dir : String → List FSTree → FSTree

/-- Name of a tree entry. -/
def FSTree.name : FSTree → String
  | file n => n
  | dir n _ => n

/-! ## IOC database loader (src/lib/loader.js) -/

/-- `addPackage` from loader.js: insert a version into the (ordered)
version set of a package name, creating the entry if needed. -/
def addPackage : IOCDb → String → String → IOCDb
  | [], name, version => [(name, [version])]
  | (m, vs) :: rest, name, version =>
    if m = name then (m, if version ∈ vs then vs else vs ++ [version]) :: rest
    else (m, vs) :: addPackage rest name version

/-- One iteration of the line loop of `loadInfectedPackages`: the state
is the `inTable` flag paired with the database built so far. -/
def processLine (st : Bool × IOCDb) (line : String) : Bool × IOCDb :=
  if strContainsSub line "| Package" || strContainsSub line "|---" then (true, st.2)
  else if st.1 && strStartsWith line "|" then
    match ((splitOnChar '|' line.data).map (fun p => jsTrim ⟨p⟩)).filter
        (fun p => !(p == "")) with
    | name :: version :: _ =>
      if !(name == "") && !(version == "") && !strContainsSub name "Package"
      then (st.1, addPackage st.2 name version) else (st.1, st.2)
    | _ => (st.1, st.2)
  else if strContainsChar line '\t' then
    match splitOnChar '\t' (jsTrim line).data with
    | p0 :: p1 :: _ =>
      if !(jsTrim ⟨p0⟩ == "") && !(jsTrim ⟨p1⟩ == "")
      then (st.1, addPackage st.2 (jsTrim ⟨p0⟩) (jsTrim ⟨p1⟩)) else (st.1, st.2)
    | _ => (st.1, st.2)
  else st

/-- `loadInfectedPackages` from loader.js, applied to the already-read
file content. -/
def loadInfectedPackages (content : String) : IOCDb :=
  (((splitOnChar '\n' content.data).map (fun l => (⟨l⟩ : String))).foldl
    processLine (false, [])).2

/-! ## Filesystem scanner (src/lib/scanner.js) -/

/-- The matching of one artifact rule against one file entry
(body of the artifact loop in `findMaliciousArtifacts`): rules whose
text contains `/` match by full-path suffix, bare filenames by exact
name equality. -/
def artifactMatch (fullPath name artifact : String) : Bool :=
  if strContainsChar artifact '/' then strEndsWith fullPath artifact
  else name == artifact

/-- All artifact findings emitted for a single file entry: the
`MALICIOUS_ARTIFACTS` loop followed by the suspicious-workflow check. -/
def artifactHits (fullPath name : String) : List ArtifactFinding :=
  ((MALICIOUS_ARTIFACTS.filter (artifactMatch fullPath name)).map
    (fun a => ⟨a, fullPath⟩))
  ++ (if strContainsSub fullPath ".github/workflows/" && suspiciousWorkflowTest name
      then [⟨"suspicious_workflow", fullPath⟩] else [])

/-- `findMaliciousArtifacts` from scanner.js: depth-first walk that
skips every entry named `node_modules` and tests every other file
against the artifact rules. -/
def findMaliciousArtifacts (cur : String) : List FSTree → List ArtifactFinding
  | [] => []
  | FSTree.dir n cs :: rest =>
    if n = "node_modules" then findMaliciousArtifacts cur rest
    else findMaliciousArtifacts (pathJoin cur n) cs ++ findMaliciousArtifacts cur rest
  | FSTree.file n :: rest =>
    if n = "node_modules" then findMaliciousArtifacts cur rest
    else artifactHits (pathJoin cur n) n ++ findMaliciousArtifacts cur rest

/-- `findPackageFiles` from scanner.js: records `node_modules` roots
without recursing, skips hidden entries other than `.github`, recurses
into other directories and records `package.json` /
`package-lock.json` files. -/
def findPackageFiles (cur : String) : List FSTree → List ScanItem
  | [] => []
  | FSTree.dir n cs :: rest =>
    if n = "node_modules" then
      ⟨"node_modules", pathJoin cur n⟩ :: findPackageFiles cur rest
    else if strStartsWith n "." && n != ".github" then findPackageFiles cur rest
    else findPackageFiles (pathJoin cur n) cs ++ findPackageFiles cur rest
  | FSTree.file n :: rest =>
    if n = "node_modules" then
      ⟨"node_modules", pathJoin cur n⟩ :: findPackageFiles cur rest
    else if strStartsWith n "." && n != ".github" then findPackageFiles cur rest
    else if n = "package.json" then
      ⟨"package.json", pathJoin cur n⟩ :: findPackageFiles cur rest
    else if n = "package-lock.json" then
      ⟨"package-lock.json", pathJoin cur n⟩ :: findPackageFiles cur rest
    else findPackageFiles cur rest

/-! ## Dependency analyzer (src/lib/analyzer.js) -/

/-- `extractVersion` from analyzer.js:
`versionSpec.replace(/^[\^~>=<]+/, '').split(' ')[0]`. -/
def opChar (c : Char) : Bool :=
  c == '^' || c == '~' || c == '>' || c == '=' || c == '<'

/-- Reduce a declared version range to its comparable token: strip the
maximal leading run of range-operator characters, then keep the
characters before the first space. -/
def extractVersion (versionSpec : String) : String :=
  ⟨(versionSpec.data.dropWhile opChar).takeWhile (fun c => c != ' ')⟩

/-- A parsed package.json as far as the analyzer inspects it: the four
dependency sections, the `scripts` object and the `version` field, each
absent (`none`) or an association list in declaration order. -/
structure Manifest where
  dependencies : Option (List (String × String)) := none
  devDependencies : Option (List (String × String)) := none
  peerDependencies : Option (List (String × String)) := none
  optionalDependencies : Option (List (String × String)) := none
  scripts : Option (List (String × String)) := none
  version : Option String := none

/-- The property read `content[depType]` for the four dependency keys. -/
def manifestSection (m : Manifest) : String → Option (List (String × String))
  | "dependencies" => m.dependencies
  | "devDependencies" => m.devDependencies
  | "peerDependencies" => m.peerDependencies
  | "optionalDependencies" => m.optionalDependencies
  | _ => none

/-- Body of the dependency loop of `checkPackageJson` for one declared
`(pkg, versionSpec)` pair. -/
def checkDepEntry (filePath : String) (db : IOCDb) (depType pkg spec : String) :
    List Finding :=
  match dbLookup db pkg with
  | none => []
  | some infectedVersions =>
    let version := extractVersion spec
    if version ∈ infectedVersions then
      [{ type := "INFECTED_PACKAGE", severity := "CRITICAL",
         package := some pkg, version := some version,
         declaredVersion := some spec, depType := some depType,
         file := some filePath }]
    else
      [{ type := "KNOWN_TARGET", severity := "WARNING",
         package := some pkg, version := some version,
         declaredVersion := some spec,
         infectedVersions := some infectedVersions,
         depType := some depType, file := some filePath,
         note := some ("This package was compromised in the Shai-Hulud 2 attack but you have a different version. Do NOT upgrade to: "
           ++ String.intercalate ", " infectedVersions) }]

/-- Association-list lookup standing for a JS object property read. -/
def objLookup : List (String × String) → String → Option String
  | [], _ => none
  | (k, v) :: rest, key => if k = key then some v else objLookup rest key

/-- Body of the suspicious-script loop of `checkPackageJson` for one
lifecycle script name. -/
def checkScriptEntry (filePath : String) (scripts : List (String × String))
    (script : String) : List Finding :=
  match objLookup scripts script with
  | none => []
  | some scriptContent =>
    if scriptContent = "" then []
    else if SUSPICIOUS_SCRIPT_PATTERNS.any (fun pat => strContainsSub scriptContent pat)
    then
      [{ type := "SUSPICIOUS_SCRIPT", severity := "WARNING",
         script := some script, content := some scriptContent,
         file := some filePath }]
    else []

/-- The suspicious-script pass of `checkPackageJson`. -/
def scriptFindings (filePath : String) (m : Manifest) : List Finding :=
  match m.scripts with
  | none => []
  | some scripts => SUSPICIOUS_SCRIPTS.flatMap (checkScriptEntry filePath scripts)

/-- The inner dependency loop of `checkPackageJson` over one section
(the `if (!content[depType]) continue` guard is the `none` case). -/
def depSectionFindings (filePath : String) (db : IOCDb) (depType : String) :
    Option (List (String × String)) → List Finding
  | none => []
  | some deps => deps.flatMap fun e => checkDepEntry filePath db depType e.1 e.2

/-- `checkPackageJson` from analyzer.js.  The file read plus
`JSON.parse` is passed in as an `Except`: `.error msg` is a thrown
parse error with message `msg`, `.ok` the parsed document. -/
def checkPackageJson (filePath : String) (parsed : Except String Manifest)
    (db : IOCDb) (verbose : Bool) : List Finding :=
  match parsed with
  | .error msg =>
    if verbose then
      [{ type := "PARSE_ERROR", severity := "INFO", file := some filePath,
         message := some ("Failed to parse: " ++ msg) }]
    else []
  | .ok content =>
    (DEPENDENCY_TYPES.flatMap fun depType =>
      depSectionFindings filePath db depType (manifestSection content depType))
    ++ scriptFindings filePath content

/-- The `(depType, pkg, versionSpec)` triples declared in one section. -/
def sectionPairs (depType : String) :
    Option (List (String × String)) → List (String × String × String)
  | none => []
  | some deps => deps.map fun e => (depType, e.1, e.2)

/-- All declared `(depType, pkg, versionSpec)` triples of a manifest,
in the order the analyzer visits them. -/
def declaredPairs (m : Manifest) : List (String × String × String) :=
  DEPENDENCY_TYPES.flatMap fun depType =>
    sectionPairs depType (manifestSection m depType)

/-- A v2/v3 lockfile `packages` entry as far as the analyzer reads it. -/
structure LockPkgInfo where
  version : Option String := none
deriving DecidableEq

/-- A v1 lockfile dependency record: a `version` and nested
`dependencies`. -/
inductive DepV1 where
  | mk : Option String → List (String × DepV1) → DepV1

/-- A parsed package-lock.json as far as the analyzer inspects it. -/
structure Lockfile where
  packages : Option (List (String × LockPkgInfo)) := none
  dependencies : Option (List (String × DepV1)) := none

/-- The package-name derivation of `checkPackageLock` for a v2/v3 key:
`pkgPath.replace('node_modules/', '').split('node_modules/')` and take
the last element. -/
def lockKeyName (pkgPath : String) : String :=
  ⟨(splitOnSub (removeFirstOcc pkgPath.data "node_modules/".data)
      "node_modules/".data).getLastD []⟩

/-- Body of the v2/v3 `packages` loop of `checkPackageLock` for one
`(installPath, info)` entry (the JS truthiness guards on the path and
the version are the explicit `""` tests). -/
def checkLockEntryV2 (filePath : String) (db : IOCDb)
    (e : String × LockPkgInfo) : List Finding :=
  if e.1 = "" then []
  else
    let pkgName := lockKeyName e.1
    match dbLookup db pkgName with
    | none => []
    | some infectedVersions =>
      match e.2.version with
      | none => []
      | some v =>
        if v = "" then []
        else if v ∈ infectedVersions then
          [{ type := "INFECTED_LOCKED_PACKAGE", severity := "CRITICAL",
             package := some pkgName, version := some v,
             file := some filePath, installed := some true }]
        else []

/-- `checkDependenciesV1` from analyzer.js: recursive walk of the v1
`dependencies` shape. -/
def checkDependenciesV1 (filePath : String) (db : IOCDb) :
    List (String × DepV1) → List Finding
  | [] => []
  | (name, DepV1.mk ver deps) :: rest =>
    (match dbLookup db name, ver with
     | some infectedVersions, some v =>
       if v = "" then []
       else if v ∈ infectedVersions then
         [{ type := "INFECTED_LOCKED_PACKAGE", severity := "CRITICAL",
            package := some name, version := some v,
            file := some filePath, installed := some true }]
       else []
     | _, _ => [])
    ++ checkDependenciesV1 filePath db deps
    ++ checkDependenciesV1 filePath db rest

/-- `checkPackageLock` from analyzer.js, with the file read and
`JSON.parse` passed in as an `Except`. -/
def checkPackageLock (filePath : String) (parsed : Except String Lockfile)
    (db : IOCDb) (verbose : Bool) : List Finding :=
  match parsed with
  | .error msg =>
    if verbose then
      [{ type := "PARSE_ERROR", severity := "INFO", file := some filePath,
         message := some ("Failed to parse: " ++ msg) }]
    else []
  | .ok content =>
    ((content.packages.getD []).flatMap (checkLockEntryV2 filePath db))
    ++ (match content.dependencies with
        | none => []
        | some deps => checkDependenciesV1 filePath db deps)

/-- `checkInstalledPackage` from analyzer.js.  The nested manifest read
is passed in: `none` when `package.json` does not exist under the
package directory, `some (.error msg)` when it exists but fails to
parse, `some (.ok m)` when parsed. -/
def checkInstalledPackage (pkgName pkgPath : String) (db : IOCDb)
    (manifestFile : Option (Except String Manifest)) (verbose : Bool) :
    List Finding :=
  match dbLookup db pkgName with
  | none => []
  | some infectedVersions =>
    match manifestFile with
    | none => []
    | some (.error msg) =>
      if verbose then
        [{ type := "PARSE_ERROR", severity := "INFO",
           path := some (pathJoin pkgPath "package.json"),
           message := some ("Failed to parse: " ++ msg) }]
      else []
    | some (.ok m) =>
      match m.version with
      | none => []
      | some v =>
        if v ∈ infectedVersions then
          [{ type := "INSTALLED_INFECTED_PACKAGE", severity := "CRITICAL",
             package := some pkgName, version := some v,
             path := some pkgPath }]
        else []

/-! ## Specification-side definitions used to state the claims -/

/-- The markdown-table rendering of one logical `(name, version)` IOC
entry: `| name | version |`. -/
def renderRow (n v : String) : String :=
  ⟨'|' :: ' ' :: (n.data ++ ' ' :: '|' :: ' ' :: (v.data ++ [' ', '|']))⟩

/-- The tab-separated rendering of one logical `(name, version)` IOC
entry. -/
def tabLine (n v : String) : String := ⟨n.data ++ '\t' :: v.data⟩

/-- Join lines with `\n` (inverse of splitting file content into
lines). -/
def joinLines : List String → String
  | [] => ""
  | [l] => l
  | l :: l' :: ls => ⟨l.data ++ '\n' :: (joinLines (l' :: ls)).data⟩

/-- A markdown-table IOC file holding exactly the given entries. -/
def renderTable (entries : List (String × String)) : String :=
  joinLines ("| Package | Version |" :: "|---|---|" ::
    entries.map (fun e => renderRow e.1 e.2))

/-- A tab-separated IOC file holding exactly the given entries. -/
def renderTabs (entries : List (String × String)) : String :=
  joinLines (entries.map (fun e => tabLine e.1 e.2))

/-- Field characters that keep a rendered IOC entry unambiguous. -/
def fieldCharOk (c : Char) : Bool := !(c == '|' || c == '\t' || c == '\n')

/-- Well-formedness of a logical IOC entry for the round-trip claim:
fields are non-empty, carry no separator characters, neither start nor
end in whitespace, the name is not header-like, and the rendered table
row is not itself recognized as a table header. -/
def wfEntry (n v : String) : Bool :=
  !jsSpace (n.data.headD ' ') && !jsSpace (n.data.reverse.headD ' ') &&
  !jsSpace (v.data.headD ' ') && !jsSpace (v.data.reverse.headD ' ') &&
  n.data.all fieldCharOk && v.data.all fieldCharOk &&
  !strContainsSub n "Package" &&
  !strContainsSub (renderRow n v) "| Package" &&
  !strContainsSub (renderRow n v) "|---"

/-- The database holding exactly the given logical entries, inserted in
order. -/
def dbOf (entries : List (String × String)) : IOCDb :=
  entries.foldl (fun db e => addPackage db e.1 e.2) []

/-- The lines of a file content, as the loader computes them. -/
def linesOf (s : String) : List String :=
  (splitOnChar '\n' s.data).map (fun l => (⟨l⟩ : String))

/-- The insertion performed by the tab-separated branch of the loader
on a single line (used by the amended claim C5). -/
def tabInsert (db : IOCDb) (line : String) : IOCDb :=
  match splitOnChar '\t' (jsTrim line).data with
  | p0 :: p1 :: _ =>
    if !(jsTrim ⟨p0⟩ == "") && !(jsTrim ⟨p1⟩ == "")
    then addPackage db (jsTrim ⟨p0⟩) (jsTrim ⟨p1⟩) else db
  | _ => db

/-! ## Claim C3: `extractVersion` reduction -/

theorem takeWhile_self_idem (q : Char → Bool) :
    ∀ l : List Char, (l.takeWhile q).takeWhile q = l.takeWhile q := by
  intro l
  induction l with
  | nil => rfl
  | cons x xs ih =>
    by_cases h : q x
    · simp [List.takeWhile_cons, h, ih]
    · simp [List.takeWhile_cons, h]

theorem dropWhile_head_false (p : Char → Bool) :
    ∀ (l : List Char) (c : Char) (cs : List Char),
      l.dropWhile p = c :: cs → p c = false := by
  intro l
  induction l with
  | nil => intro c cs h; simp at h
  | cons x xs ih =>
    intro c cs h
    by_cases hx : p x
    · rw [List.dropWhile_cons_of_pos hx] at h
      exact ih c cs h
    · rw [List.dropWhile_cons_of_neg hx] at h
      cases h
      simpa using hx

/-- C3: the version-spec reduction `extractVersion` is idempotent, and
on the spec examples it strips the recognized leading operators and
keeps the characters before the first space; the final conjunct records
that the split is on the space character only (a tab is kept). -/
theorem claim_C3 :
    (∀ s : String, extractVersion (extractVersion s) = extractVersion s) ∧
    extractVersion "^1.2.3" = "1.2.3" ∧
    extractVersion "~1.2.3" = "1.2.3" ∧
    extractVersion ">=1.2.3" = "1.2.3" ∧
    extractVersion "1.2.3" = "1.2.3" ∧
    extractVersion ">=1.0.0 <2.0.0" = "1.0.0" ∧
    extractVersion "1.2.3\t4.5.6" = "1.2.3\t4.5.6" := by
  refine ⟨?_, by decide, by decide, by decide, by decide, by decide, by decide⟩
  intro s
  unfold extractVersion
  apply congrArg String.mk
  show ((((s.data.dropWhile opChar).takeWhile _).dropWhile opChar).takeWhile _) = _
  set d := s.data.dropWhile opChar with hd
  set t := d.takeWhile (fun c => c != ' ') with ht
  have htt : t.dropWhile opChar = t := by
    cases hcase : t with
    | nil => simp
    | cons c cs =>
      have hcd : ∃ ds, d = c :: ds := by
        cases hdc : d with
        | nil => rw [hdc] at ht; simp [ht] at hcase
        | cons x xs =>
          rw [hdc] at ht
          rw [List.takeWhile_cons] at ht
          by_cases hx : (x != ' ') = true
          · rw [if_pos hx] at ht
            rw [ht] at hcase
            cases hcase
            exact ⟨xs, rfl⟩
          · rw [if_neg hx] at ht
            rw [ht] at hcase
            exact absurd hcase (by simp)
      obtain ⟨ds, hds⟩ := hcd
      have hop : opChar c = false := by
        apply dropWhile_head_false opChar s.data c ds
        rw [← hd, hds]
      rw [List.dropWhile_cons_of_neg (by simp [hop])]
  rw [htt, ht, takeWhile_self_idem]

/-- C3 counterexample to the claim as stated: on an input whose token
boundary is a tab — whitespace, but not a space — the reduction keeps
the whole string rather than the first whitespace-delimited token. -/
theorem claim_C3_counterexample :
    extractVersion "1.2.3\t4.5.6" = "1.2.3\t4.5.6" ∧
    ("1.2.3\t4.5.6" : String) ≠ "1.2.3" := by
  constructor <;> decide

/-! ## Claim C7: parse failures in `checkPackageJson` -/

/-- C7: when the manifest fails to parse, `checkPackageJson` totally
returns: in verbose mode exactly one `PARSE_ERROR`/INFO finding with
the offending path and message, no dependency or script analysis; in
non-verbose mode the empty list. -/
theorem claim_C7 (filePath msg : String) (db : IOCDb) :
    checkPackageJson filePath (Except.error msg) db true =
      [{ type := "PARSE_ERROR", severity := "INFO", file := some filePath,
         message := some ("Failed to parse: " ++ msg) }] ∧
    checkPackageJson filePath (Except.error msg) db false = [] := by
  constructor <;> rfl

/-! ## Claim C9: `findMaliciousArtifacts` and `node_modules` -/

/-- C9: any entry named `node_modules` — directory or file — is
dropped by the artifact walk without recursion, so no artifact rule is
ever applied inside a `node_modules` subtree. -/
theorem claim_C9 (cur : String) (cs rest : List FSTree) :
    findMaliciousArtifacts cur (FSTree.dir "node_modules" cs :: rest) =
      findMaliciousArtifacts cur rest ∧
    findMaliciousArtifacts cur (FSTree.file "node_modules" :: rest) =
      findMaliciousArtifacts cur rest := by
  constructor <;> simp [findMaliciousArtifacts]

/-! ## Claim C10: hidden-entry asymmetry of the two walks -/

/-- C10: `findPackageFiles` skips every hidden entry except exactly
`.github` (no recursion, no record), recurses into `.github`, while
`findMaliciousArtifacts` applies no hidden-name rule and recurses into
every directory other than `node_modules`. -/
theorem claim_C10 :
    (∀ (cur n : String) (cs rest : List FSTree),
      strStartsWith n "." = true → n ≠ ".github" →
      findPackageFiles cur (FSTree.dir n cs :: rest) = findPackageFiles cur rest) ∧
    (∀ (cur n : String) (rest : List FSTree),
      strStartsWith n "." = true → n ≠ ".github" →
      findPackageFiles cur (FSTree.file n :: rest) = findPackageFiles cur rest) ∧
    (∀ (cur : String) (cs rest : List FSTree),
      findPackageFiles cur (FSTree.dir ".github" cs :: rest) =
        findPackageFiles (pathJoin cur ".github") cs ++ findPackageFiles cur rest) ∧
    (∀ (cur n : String) (cs rest : List FSTree), n ≠ "node_modules" →
      findMaliciousArtifacts cur (FSTree.dir n cs :: rest) =
        findMaliciousArtifacts (pathJoin cur n) cs ++ findMaliciousArtifacts cur rest) := by
  refine ⟨?_, ?_, ?_, ?_⟩
  · intro cur n cs rest h1 h2
    have hn : n ≠ "node_modules" := by
      intro he
      rw [he] at h1
      exact absurd h1 (by decide)
    simp [findPackageFiles, hn, h1, h2]
  · intro cur n rest h1 h2
    have hn : n ≠ "node_modules" := by
      intro he
      rw [he] at h1
      exact absurd h1 (by decide)
    simp [findPackageFiles, hn, h1, h2]
  · intro cur cs rest
    simp [findPackageFiles]
  · intro cur n cs rest hn
    simp [findMaliciousArtifacts, hn]

/-- Witness for C10 at the hidden name `.git`. -/
theorem claim_C10_witness :
    (strStartsWith ".git" "." = true ∧ (".git" : String) ≠ ".github" ∧
      (".git" : String) ≠ "node_modules") ∧
    findPackageFiles "root" [FSTree.dir ".git" [FSTree.file "package.json"]] =
      findPackageFiles "root" [] ∧
    findMaliciousArtifacts "root" [FSTree.dir ".git" [FSTree.file "cloud.json"]] =
      findMaliciousArtifacts (pathJoin "root" ".git") [FSTree.file "cloud.json"] ++
        findMaliciousArtifacts "root" [] :=
  ⟨⟨by decide, by decide, by decide⟩,
   claim_C10.1 "root" ".git" [FSTree.file "package.json"] [] (by decide) (by decide),
   claim_C10.2.2.2 "root" ".git" [FSTree.file "cloud.json"] [] (by decide)⟩

/-! ## Claim C1: basename artifact rules match by exact filename only -/

theorem strEndsWith_of_getLast_ne (s suf : String) (c d : Char)
    (hs : s.data.getLast? = some c) (hf : suf.data.getLast? = some d)
    (h : c ≠ d) : strEndsWith s suf = false := by
  unfold strEndsWith
  by_contra hcon
  have htrue : suf.data.isSuffixOf s.data = true := by
    revert hcon
    cases suf.data.isSuffixOf s.data <;> simp
  obtain ⟨t, ht⟩ := List.isSuffixOf_iff_suffix.mp htrue
  have hfn : suf.data ≠ [] := by
    intro he
    rw [he] at hf
    simp at hf
  have hlast : (t ++ suf.data).getLast? = suf.data.getLast? :=
    List.getLast?_append_of_ne_nil t hfn
  rw [ht, hs, hf] at hlast
  exact h (by injection hlast)

theorem pathJoin_getLast (cur name : String) (c : Char)
    (h : name.data.getLast? = some c) :
    (pathJoin cur name).data.getLast? = some c := by
  unfold pathJoin
  rw [String.data_append]
  rw [List.getLast?_append_of_ne_nil]
  · exact h
  · intro he
    rw [he] at h
    simp at h

theorem artifactMatch_basename (fullPath name a : String)
    (h : strContainsChar a '/' = false) :
    artifactMatch fullPath name a = (name == a) := by
  unfold artifactMatch
  rw [if_neg]
  simp [h]

/-- Evaluation of the per-file artifact check for a filename ending in
the letter `n` that equals none of the bare-filename artifacts and does
not look like a suspicious workflow: no finding at all. -/
theorem artifactHits_nil (cur name : String)
    (hn : name.data.getLast? = some 'n')
    (h3 : (name == "cloud.json") = false)
    (h4 : (name == "contents.json") = false)
    (h5 : (name == "environment.json") = false)
    (h6 : (name == "truffleSecrets.json") = false)
    (h7 : (name == "actionsSecrets.json") = false)
    (h8 : (name == "setup_bun.js") = false)
    (h9 : (name == "bun_environment.js") = false)
    (hw : suspiciousWorkflowTest name = false) :
    artifactHits (pathJoin cur name) name = [] := by
  have hl : (pathJoin cur name).data.getLast? = some 'n' :=
    pathJoin_getLast cur name 'n' hn
  have h1 : artifactMatch (pathJoin cur name) name
      ".github/workflows/discussion.yaml" = false := by
    unfold artifactMatch
    rw [if_pos (by decide)]
    exact strEndsWith_of_getLast_ne _ _ 'n' 'l' hl (by decide) (by decide)
  have h2 : artifactMatch (pathJoin cur name) name
      ".github/workflows/discussion.yml" = false := by
    unfold artifactMatch
    rw [if_pos (by decide)]
    exact strEndsWith_of_getLast_ne _ _ 'n' 'l' hl (by decide) (by decide)
  unfold artifactHits
  rw [show MALICIOUS_ARTIFACTS =
    ".github/workflows/discussion.yaml" :: ".github/workflows/discussion.yml" ::
    "cloud.json" :: "contents.json" :: "environment.json" ::
    "truffleSecrets.json" :: "actionsSecrets.json" :: "setup_bun.js" ::
    "bun_environment.js" :: [] from rfl]
  rw [List.filter_cons_of_neg (by rw [h1]; exact Bool.false_ne_true),
      List.filter_cons_of_neg (by rw [h2]; exact Bool.false_ne_true),
      List.filter_cons_of_neg
        (by rw [artifactMatch_basename _ _ _ (by decide), h3]; exact Bool.false_ne_true),
      List.filter_cons_of_neg
        (by rw [artifactMatch_basename _ _ _ (by decide), h4]; exact Bool.false_ne_true),
      List.filter_cons_of_neg
        (by rw [artifactMatch_basename _ _ _ (by decide), h5]; exact Bool.false_ne_true),
      List.filter_cons_of_neg
        (by rw [artifactMatch_basename _ _ _ (by decide), h6]; exact Bool.false_ne_true),
      List.filter_cons_of_neg
        (by rw [artifactMatch_basename _ _ _ (by decide), h7]; exact Bool.false_ne_true),
      List.filter_cons_of_neg
        (by rw [artifactMatch_basename _ _ _ (by decide), h8]; exact Bool.false_ne_true),
      List.filter_cons_of_neg
        (by rw [artifactMatch_basename _ _ _ (by decide), h9]; exact Bool.false_ne_true)]
  rw [hw, Bool.and_false]
  simp

/-- Evaluation of the per-file artifact check for a file named exactly
`environment.json`: exactly the one basename finding, at any depth. -/
theorem artifactHits_environment (cur : String) :
    artifactHits (pathJoin cur "environment.json") "environment.json" =
      [⟨"environment.json", pathJoin cur "environment.json"⟩] := by
  have hl : (pathJoin cur "environment.json").data.getLast? = some 'n' :=
    pathJoin_getLast cur "environment.json" 'n' (by decide)
  have h1 : artifactMatch (pathJoin cur "environment.json") "environment.json"
      ".github/workflows/discussion.yaml" = false := by
    unfold artifactMatch
    rw [if_pos (by decide)]
    exact strEndsWith_of_getLast_ne _ _ 'n' 'l' hl (by decide) (by decide)
  have h2 : artifactMatch (pathJoin cur "environment.json") "environment.json"
      ".github/workflows/discussion.yml" = false := by
    unfold artifactMatch
    rw [if_pos (by decide)]
    exact strEndsWith_of_getLast_ne _ _ 'n' 'l' hl (by decide) (by decide)
  unfold artifactHits
  rw [show MALICIOUS_ARTIFACTS =
    ".github/workflows/discussion.yaml" :: ".github/workflows/discussion.yml" ::
    "cloud.json" :: "contents.json" :: "environment.json" ::
    "truffleSecrets.json" :: "actionsSecrets.json" :: "setup_bun.js" ::
    "bun_environment.js" :: [] from rfl]
  rw [List.filter_cons_of_neg (by rw [h1]; exact Bool.false_ne_true),
      List.filter_cons_of_neg (by rw [h2]; exact Bool.false_ne_true),
      List.filter_cons_of_neg
        (by rw [artifactMatch_basename _ _ _ (by decide)]; decide),
      List.filter_cons_of_neg
        (by rw [artifactMatch_basename _ _ _ (by decide)]; decide),
      List.filter_cons_of_pos
        (by rw [artifactMatch_basename _ _ _ (by decide)]; decide),
      List.filter_cons_of_neg
        (by rw [artifactMatch_basename _ _ _ (by decide)]; decide),
      List.filter_cons_of_neg
        (by rw [artifactMatch_basename _ _ _ (by decide)]; decide),
      List.filter_cons_of_neg
        (by rw [artifactMatch_basename _ _ _ (by decide)]; decide),
      List.filter_cons_of_neg
        (by rw [artifactMatch_basename _ _ _ (by decide)]; decide)]
  rw [show suspiciousWorkflowTest "environment.json" = false from by decide,
      Bool.and_false]
  simp

/-- C1: a bare-filename artifact rule fires on a file entry exactly
when the entry's name equals the artifact string; consequently a file
named `environment.json` is flagged at any depth, while
`Sandbox.postman_environment.json` and `my-config.environment.json`
never produce a finding. -/
theorem claim_C1 :
    (∀ (fullPath name a : String), a ∈ MALICIOUS_ARTIFACTS →
      strContainsChar a '/' = false →
      ((⟨a, fullPath⟩ : ArtifactFinding) ∈ artifactHits fullPath name ↔ name = a)) ∧
    (∀ (cur : String) (rest : List FSTree),
      findMaliciousArtifacts cur (FSTree.file "environment.json" :: rest) =
        ⟨"environment.json", pathJoin cur "environment.json"⟩ ::
          findMaliciousArtifacts cur rest) ∧
    (∀ (cur : String) (rest : List FSTree),
      findMaliciousArtifacts cur
          (FSTree.file "Sandbox.postman_environment.json" :: rest) =
        findMaliciousArtifacts cur rest) ∧
    (∀ (cur : String) (rest : List FSTree),
      findMaliciousArtifacts cur
          (FSTree.file "my-config.environment.json" :: rest) =
        findMaliciousArtifacts cur rest) := by
  refine ⟨?_, ?_, ?_, ?_⟩
  · intro fullPath name a ha hslash
    constructor
    · intro hmem
      unfold artifactHits at hmem
      rcases List.mem_append.mp hmem with h | h
      · obtain ⟨a', ha', heq⟩ := List.mem_map.mp h
        obtain ⟨haa, hmatch⟩ := List.mem_filter.mp ha'
        have haeq : a' = a := congrArg ArtifactFinding.artifact heq
        rw [haeq] at hmatch
        rw [artifactMatch_basename _ _ _ hslash] at hmatch
        exact eq_of_beq hmatch
      · by_cases hc : (strContainsSub fullPath ".github/workflows/" &&
            suspiciousWorkflowTest name) = true
        · rw [if_pos hc] at h
          have : a = "suspicious_workflow" := by
            have := List.mem_singleton.mp h
            exact congrArg ArtifactFinding.artifact this
          rw [this] at ha
          exact absurd ha (by decide)
        · rw [if_neg hc] at h
          exact absurd h (List.not_mem_nil _)
    · intro hname
      unfold artifactHits
      apply List.mem_append_left
      apply List.mem_map.mpr
      refine ⟨a, List.mem_filter.mpr ⟨ha, ?_⟩, rfl⟩
      rw [artifactMatch_basename _ _ _ hslash, hname]
      exact beq_self_eq_true a
  · intro cur rest
    have hne : ("environment.json" : String) ≠ "node_modules" := by decide
    simp only [findMaliciousArtifacts, if_neg hne]
    rw [artifactHits_environment]
    rfl
  · intro cur rest
    have hne : ("Sandbox.postman_environment.json" : String) ≠ "node_modules" := by
      decide
    simp only [findMaliciousArtifacts, if_neg hne]
    rw [artifactHits_nil cur "Sandbox.postman_environment.json" (by decide)
      (by decide) (by decide) (by decide) (by decide) (by decide) (by decide)
      (by decide) (by decide)]
    rfl
  · intro cur rest
    have hne : ("my-config.environment.json" : String) ≠ "node_modules" := by decide
    simp only [findMaliciousArtifacts, if_neg hne]
    rw [artifactHits_nil cur "my-config.environment.json" (by decide)
      (by decide) (by decide) (by decide) (by decide) (by decide) (by decide)
      (by decide) (by decide)]
    rfl

/-- Witness for C1 at the artifact `environment.json` and a depth-two
path. -/
theorem claim_C1_witness :
    ("environment.json" ∈ MALICIOUS_ARTIFACTS ∧
      strContainsChar "environment.json" '/' = false) ∧
    ((⟨"environment.json", "proj/sub/environment.json"⟩ : ArtifactFinding) ∈
        artifactHits "proj/sub/environment.json" "environment.json" ↔
      "environment.json" = "environment.json") :=
  ⟨⟨by decide, by decide⟩,
   claim_C1.1 "proj/sub/environment.json" "environment.json" "environment.json"
     (by decide) (by decide)⟩

/-! ## Claim C2: manifest dependency classification -/

theorem flatMap_map_dep (l : List (String × String)) (dt : String)
    (H : String × String × String → List Finding) :
    (l.map fun e => (dt, e.1, e.2)).flatMap H = l.flatMap fun e => H (dt, e.1, e.2) := by
  induction l with
  | nil => rfl
  | cons e es ih => simp only [List.map_cons, List.flatMap_cons, ih]

theorem depSectionFindings_eq (filePath : String) (db : IOCDb) (dt : String)
    (o : Option (List (String × String))) :
    depSectionFindings filePath db dt o =
      (sectionPairs dt o).flatMap
        (fun x => checkDepEntry filePath db x.1 x.2.1 x.2.2) := by
  cases o with
  | none => rfl
  | some deps =>
    show deps.flatMap _ = (deps.map fun e => (dt, e.1, e.2)).flatMap _
    rw [flatMap_map_dep]

/-- C2: a declared dependency pair whose package name is absent from
the IOC database produces no finding; with the name present, it yields
exactly one `INFECTED_PACKAGE`/CRITICAL finding with the correct
`depType` when the reduced version is infected and otherwise exactly
one `KNOWN_TARGET`/WARNING finding whose `infectedVersions` is the full
IOC version set; and the dependency output of `checkPackageJson` is
exactly this per-pair classification over all declared pairs of the
four sections. -/
theorem claim_C2 (db : IOCDb) (filePath : String) (verbose : Bool) (m : Manifest) :
    (∀ depType pkg spec, dbLookup db pkg = none →
      checkDepEntry filePath db depType pkg spec = []) ∧
    (∀ depType pkg spec vs, dbLookup db pkg = some vs →
      extractVersion spec ∈ vs →
      checkDepEntry filePath db depType pkg spec =
        [{ type := "INFECTED_PACKAGE", severity := "CRITICAL",
           package := some pkg, version := some (extractVersion spec),
           declaredVersion := some spec, depType := some depType,
           file := some filePath }]) ∧
    (∀ depType pkg spec vs, dbLookup db pkg = some vs →
      extractVersion spec ∉ vs →
      checkDepEntry filePath db depType pkg spec =
        [{ type := "KNOWN_TARGET", severity := "WARNING",
           package := some pkg, version := some (extractVersion spec),
           declaredVersion := some spec, depType := some depType,
           file := some filePath,
           note := some ("This package was compromised in the Shai-Hulud 2 attack but you have a different version. Do NOT upgrade to: "
             ++ String.intercalate ", " vs),
           infectedVersions := some vs }]) ∧
    checkPackageJson filePath (Except.ok m) db verbose =
      ((declaredPairs m).flatMap
        (fun x => checkDepEntry filePath db x.1 x.2.1 x.2.2))
      ++ scriptFindings filePath m := by
  refine ⟨?_, ?_, ?_, ?_⟩
  · intro depType pkg spec h
    unfold checkDepEntry
    rw [h]
  · intro depType pkg spec vs h hmem
    unfold checkDepEntry
    rw [h]
    show (if extractVersion spec ∈ vs then _ else _) = _
    rw [if_pos hmem]
  · intro depType pkg spec vs h hmem
    unfold checkDepEntry
    rw [h]
    show (if extractVersion spec ∈ vs then _ else _) = _
    rw [if_neg hmem]
  · show (DEPENDENCY_TYPES.flatMap fun depType =>
        depSectionFindings filePath db depType (manifestSection m depType))
      ++ scriptFindings filePath m = _
    unfold declaredPairs
    congr 1
    simp only [DEPENDENCY_TYPES, List.flatMap_cons, List.flatMap_nil,
      List.flatMap_append, List.append_nil, depSectionFindings_eq]

/-- Witness for C2: a manifest declaring `@ctrl/tinycolor@^4.1.1`
against an IOC database infecting versions 4.1.1 and 4.1.2. -/
theorem claim_C2_witness :
    (dbLookup [("@ctrl/tinycolor", ["4.1.1", "4.1.2"])] "@ctrl/tinycolor" =
        some ["4.1.1", "4.1.2"] ∧
      extractVersion "^4.1.1" ∈ ["4.1.1", "4.1.2"]) ∧
    checkDepEntry "proj/package.json" [("@ctrl/tinycolor", ["4.1.1", "4.1.2"])]
        "dependencies" "@ctrl/tinycolor" "^4.1.1" =
      [{ type := "INFECTED_PACKAGE", severity := "CRITICAL",
         package := some "@ctrl/tinycolor", version := some (extractVersion "^4.1.1"),
         declaredVersion := some "^4.1.1", depType := some "dependencies",
         file := some "proj/package.json" }] :=
  ⟨⟨by decide, by decide⟩,
   (claim_C2 [("@ctrl/tinycolor", ["4.1.1", "4.1.2"])] "proj/package.json" false
       {}).2.1 "dependencies" "@ctrl/tinycolor" "^4.1.1" ["4.1.1", "4.1.2"]
     (by decide) (by decide)⟩

/-! ## Claim C6: lockfile v2/v3 package-name derivation -/

theorem isPrefixOf_append_self (pat l : List Char) :
    pat.isPrefixOf (pat ++ l) = true := by
  induction pat with
  | nil => cases l <;> rfl
  | cons c cs ih => simp [List.isPrefixOf, ih]

theorem removeFirstOcc_append (pat l : List Char) (h : pat ≠ []) :
    removeFirstOcc (pat ++ l) pat = l := by
  cases pat with
  | nil => exact absurd rfl h
  | cons c cs =>
    show removeFirstOcc (c :: (cs ++ l)) (c :: cs) = l
    unfold removeFirstOcc
    rw [if_pos]
    · show ((c :: cs) ++ l).drop (c :: cs).length = l
      exact List.drop_left (c :: cs) l
    · exact isPrefixOf_append_self (c :: cs) l

theorem splitOnSubF_no_occ (pat : List Char) :
    ∀ (l : List Char) (fuel : Nat), listContainsSub l pat = false →
      splitOnSubF pat fuel l = [l] := by
  intro l
  induction l with
  | nil => intro fuel h; cases fuel <;> rfl
  | cons x xs ih =>
    intro fuel h
    unfold listContainsSub at h
    rw [Bool.or_eq_false_iff] at h
    obtain ⟨h1, h2⟩ := h
    cases fuel with
    | zero => rfl
    | succ fuel =>
      unfold splitOnSubF
      rw [if_neg (by rw [h1]; exact Bool.false_ne_true)]
      rw [ih fuel h2]
      rfl

theorem splitOnSub_no_occ (l pat : List Char)
    (h : listContainsSub l pat = false) : splitOnSub l pat = [l] :=
  splitOnSubF_no_occ pat l l.length h

theorem lockKeyName_append (p : String)
    (h : strContainsSub p "node_modules/" = false) :
    lockKeyName ("node_modules/" ++ p) = p := by
  unfold lockKeyName
  rw [String.data_append]
  rw [removeFirstOcc_append "node_modules/".data p.data (by decide)]
  rw [splitOnSub_no_occ p.data "node_modules/".data h]
  rfl

theorem append_ne_empty_of_data (pre p : String) (h : pre.data ≠ []) :
    pre ++ p ≠ "" := by
  intro he
  have := congrArg String.data he
  rw [String.data_append] at this
  simp at this
  exact h this.1

theorem checkLockEntryV2_infected (filePath : String) (db : IOCDb)
    (p ver : String) (vs : List String)
    (hp : strContainsSub p "node_modules/" = false)
    (hdb : dbLookup db p = some vs) (hv : ver ∈ vs) (hne : ver ≠ "") :
    checkLockEntryV2 filePath db ("node_modules/" ++ p, { version := some ver }) =
      [{ type := "INFECTED_LOCKED_PACKAGE", severity := "CRITICAL",
         package := some p, version := some ver, file := some filePath,
         installed := some true }] := by
  unfold checkLockEntryV2
  rw [if_neg (append_ne_empty_of_data "node_modules/" p (by decide))]
  show (match dbLookup db (lockKeyName ("node_modules/" ++ p)) with
    | none => _ | some infectedVersions => _) = _
  rw [lockKeyName_append p hp, hdb]
  show (if ver = "" then _ else _) = _
  rw [if_neg hne]
  show (if ver ∈ vs then _ else _) = _
  rw [if_pos hv]

/-- C6: the v2/v3 lockfile key `node_modules/<name>` is reduced to
`<name>` by stripping the leading `node_modules/` and taking the last
`node_modules/`-delimited segment, and a lockfile whose `packages`
mapping holds exactly such a key with an infected version yields
exactly one `INFECTED_LOCKED_PACKAGE`/CRITICAL finding whose `package`
is that name. -/
theorem claim_C6 :
    (∀ p : String, strContainsSub p "node_modules/" = false →
      lockKeyName ("node_modules/" ++ p) = p) ∧
    (∀ (db : IOCDb) (filePath : String) (verbose : Bool) (p ver : String)
        (vs : List String),
      strContainsSub p "node_modules/" = false →
      dbLookup db p = some vs → ver ∈ vs → ver ≠ "" →
      checkPackageLock filePath
          (Except.ok { packages := some [("node_modules/" ++ p, { version := some ver })],
                       dependencies := none })
          db verbose =
        [{ type := "INFECTED_LOCKED_PACKAGE", severity := "CRITICAL",
           package := some p, version := some ver, file := some filePath,
           installed := some true }]) := by
  constructor
  · intro p h
    exact lockKeyName_append p h
  · intro db filePath verbose p ver vs hp hdb hv hne
    show ([("node_modules/" ++ p, ({ version := some ver } : LockPkgInfo))].flatMap
        (checkLockEntryV2 filePath db)) ++ _ = _
    rw [List.flatMap_cons, List.flatMap_nil]
    rw [checkLockEntryV2_infected filePath db p ver vs hp hdb hv hne]
    rfl

/-- Witness for C6 at the scoped package `@scope/pkg`. -/
theorem claim_C6_witness :
    (strContainsSub "@scope/pkg" "node_modules/" = false ∧
      dbLookup [("@scope/pkg", ["9.9.9"])] "@scope/pkg" = some ["9.9.9"] ∧
      "9.9.9" ∈ ["9.9.9"] ∧ ("9.9.9" : String) ≠ "") ∧
    checkPackageLock "proj/package-lock.json"
        (Except.ok { packages := some [("node_modules/" ++ "@scope/pkg",
                       { version := some "9.9.9" })],
                     dependencies := none })
        [("@scope/pkg", ["9.9.9"])] false =
      [{ type := "INFECTED_LOCKED_PACKAGE", severity := "CRITICAL",
         package := some "@scope/pkg", version := some "9.9.9",
         file := some "proj/package-lock.json", installed := some true }] :=
  ⟨⟨by decide, by decide, by decide, by decide⟩,
   claim_C6.2 [("@scope/pkg", ["9.9.9"])] "proj/package-lock.json" false
     "@scope/pkg" "9.9.9" ["9.9.9"] (by decide) (by decide) (by decide)
     (by decide)⟩

/-! ## Claim C8: installed-package check and nested manifests -/

/-- C8 (amended): in the installed-package check a missing nested
manifest never yields a finding; an unparsable one never yields an
infection finding and is skipped silently in non-verbose mode, but in
verbose mode it emits one `PARSE_ERROR`/INFO diagnostic; names absent
from the IOC database yield nothing; and the
`INSTALLED_INFECTED_PACKAGE`/CRITICAL finding carrying the
installation path is emitted exactly when the nested manifest parses
with a version in the infected set. -/
theorem claim_C8 (pkgName pkgPath : String) (db : IOCDb) (verbose : Bool) :
    (checkInstalledPackage pkgName pkgPath db none verbose = []) ∧
    (∀ msg, checkInstalledPackage pkgName pkgPath db
        (some (Except.error msg)) false = []) ∧
    (∀ msg vs, dbLookup db pkgName = some vs →
      checkInstalledPackage pkgName pkgPath db (some (Except.error msg)) true =
        [{ type := "PARSE_ERROR", severity := "INFO",
           path := some (pathJoin pkgPath "package.json"),
           message := some ("Failed to parse: " ++ msg) }]) ∧
    (∀ mf, dbLookup db pkgName = none →
      checkInstalledPackage pkgName pkgPath db mf verbose = []) ∧
    (∀ (m : Manifest) (vs : List String) (v : String),
      dbLookup db pkgName = some vs → m.version = some v → v ∈ vs →
      checkInstalledPackage pkgName pkgPath db (some (Except.ok m)) verbose =
        [{ type := "INSTALLED_INFECTED_PACKAGE", severity := "CRITICAL",
           package := some pkgName, version := some v, path := some pkgPath }]) ∧
    (∀ (m : Manifest) (vs : List String) (v : String),
      dbLookup db pkgName = some vs → m.version = some v → v ∉ vs →
      checkInstalledPackage pkgName pkgPath db (some (Except.ok m)) verbose = []) ∧
    (∀ (m : Manifest) (vs : List String),
      dbLookup db pkgName = some vs → m.version = none →
      checkInstalledPackage pkgName pkgPath db (some (Except.ok m)) verbose = []) := by
  refine ⟨?_, ?_, ?_, ?_, ?_, ?_, ?_⟩
  · unfold checkInstalledPackage
    cases dbLookup db pkgName <;> rfl
  · intro msg
    unfold checkInstalledPackage
    cases dbLookup db pkgName <;> rfl
  · intro msg vs h
    unfold checkInstalledPackage
    rw [h]
    rfl
  · intro mf h
    unfold checkInstalledPackage
    rw [h]
  · intro m vs v h hv hmem
    unfold checkInstalledPackage
    rw [h]
    show (match m.version with
      | none => ([] : List Finding)
      | some v => if v ∈ vs then
          [{ type := "INSTALLED_INFECTED_PACKAGE", severity := "CRITICAL",
             package := some pkgName, version := some v, path := some pkgPath }]
        else []) = _
    rw [hv]
    show (if v ∈ vs then _ else _) = _
    rw [if_pos hmem]
  · intro m vs v h hv hmem
    unfold checkInstalledPackage
    rw [h]
    show (match m.version with
      | none => ([] : List Finding)
      | some v => if v ∈ vs then
          [{ type := "INSTALLED_INFECTED_PACKAGE", severity := "CRITICAL",
             package := some pkgName, version := some v, path := some pkgPath }]
        else []) = _
    rw [hv]
    show (if v ∈ vs then _ else _) = _
    rw [if_neg hmem]
  · intro m vs h hv
    unfold checkInstalledPackage
    rw [h]
    show (match m.version with
      | none => ([] : List Finding)
      | some v => if v ∈ vs then
          [{ type := "INSTALLED_INFECTED_PACKAGE", severity := "CRITICAL",
             package := some pkgName, version := some v, path := some pkgPath }]
        else []) = _
    rw [hv]

/-- C8 counterexample to the claim as stated: with verbose diagnostics
on, an unparsable nested manifest of an IOC-listed package is not
silent — it produces a `PARSE_ERROR` finding. -/
theorem claim_C8_counterexample :
    checkInstalledPackage "evil" "proj/node_modules/evil" [("evil", ["1.0.0"])]
        (some (Except.error "bad json")) true =
      [{ type := "PARSE_ERROR", severity := "INFO",
         path := some "proj/node_modules/evil/package.json",
         message := some "Failed to parse: bad json" }] ∧
    checkInstalledPackage "evil" "proj/node_modules/evil" [("evil", ["1.0.0"])]
        (some (Except.error "bad json")) true ≠ [] := by
  constructor <;> decide

/-- Witness for C8 at a concrete installed infected package. -/
theorem claim_C8_witness :
    (dbLookup [("evil", ["1.0.0"])] "evil" = some ["1.0.0"] ∧
      (({ version := some "1.0.0" } : Manifest).version = some "1.0.0") ∧
      "1.0.0" ∈ ["1.0.0"]) ∧
    checkInstalledPackage "evil" "proj/node_modules/evil" [("evil", ["1.0.0"])]
        (some (Except.ok { version := some "1.0.0" })) false =
      [{ type := "INSTALLED_INFECTED_PACKAGE", severity := "CRITICAL",
         package := some "evil", version := some "1.0.0",
         path := some "proj/node_modules/evil" }] :=
  ⟨⟨by decide, by decide, by decide⟩,
   (claim_C8 "evil" "proj/node_modules/evil" [("evil", ["1.0.0"])] false).2.2.2.2.1
     { version := some "1.0.0" } ["1.0.0"] "1.0.0" (by decide) rfl (by decide)⟩

/-! ## Claim C5: the tab-separated fallback branch -/

theorem ite_pair {α β : Type} (c : Prop) [Decidable c] (a : α) (x y : β) :
    (if c then (a, x) else (a, y)) = (a, if c then x else y) := by
  by_cases h : c <;> simp [h]

/-- C5 (amended): a line containing a tab is handled by the
tab-separated branch — trimmed, split on tabs, and its first two
fields inserted after trimming when both are non-empty — exactly when
the line is not recognized as a table header (no `| Package`, no
`|---`) and is not consumed by the table branch (table mode with a
leading `|`). -/
theorem claim_C5 (inTable : Bool) (db : IOCDb) (line : String)
    (ht : strContainsChar line '\t' = true)
    (h1 : strContainsSub line "| Package" = false)
    (h2 : strContainsSub line "|---" = false)
    (h3 : inTable = false ∨ strStartsWith line "|" = false) :
    processLine (inTable, db) line = (inTable, tabInsert db line) := by
  unfold processLine
  rw [h1, h2]
  rw [if_neg (by decide : ¬ (((false : Bool) || false) = true))]
  have hcond : (inTable && strStartsWith line "|") = false := by
    rcases h3 with h | h <;> rw [h] <;> simp
  rw [hcond, if_neg (by decide : ¬ ((false : Bool) = true))]
  rw [if_pos ht]
  unfold tabInsert
  cases hsp : splitOnChar '\t' (jsTrim line).data with
  | nil => rfl
  | cons p0 rest =>
    cases rest with
    | nil => rfl
    | cons p1 rest' =>
      show (if (!(jsTrim ⟨p0⟩ == "") && !(jsTrim ⟨p1⟩ == "")) = true
          then (inTable, addPackage db (jsTrim ⟨p0⟩) (jsTrim ⟨p1⟩))
          else (inTable, db))
        = (inTable, if (!(jsTrim ⟨p0⟩ == "") && !(jsTrim ⟨p1⟩ == "")) = true
          then addPackage db (jsTrim ⟨p0⟩) (jsTrim ⟨p1⟩) else db)
      exact ite_pair _ inTable _ _

/-- C5 counterexample to the claim as stated: the line
`| Package<TAB>v1` contains a tab and has two non-empty tab fields,
yet nothing is inserted — the line is consumed as a table header. -/
theorem claim_C5_counterexample :
    strContainsChar "| Package\tv1" '\t' = true ∧
    loadInfectedPackages "| Package\tv1" = ([] : IOCDb) ∧
    dbLookup (loadInfectedPackages "| Package\tv1") "| Package" = none := by
  refine ⟨by decide, by decide, by decide⟩

/-- Witness for C5 on an ordinary tab-separated line. -/
theorem claim_C5_witness :
    (strContainsChar "pkg\t1.0.0" '\t' = true ∧
      strContainsSub "pkg\t1.0.0" "| Package" = false ∧
      strContainsSub "pkg\t1.0.0" "|---" = false) ∧
    processLine (false, []) "pkg\t1.0.0" = (false, tabInsert [] "pkg\t1.0.0") :=
  ⟨⟨by decide, by decide, by decide⟩,
   claim_C5 false [] "pkg\t1.0.0" (by decide) (by decide) (by decide)
     (Or.inl rfl)⟩

/-! ## Claim C4: round-trip of the two IOC file formats -/

theorem splitOnChar_cons_self (c : Char) (l : List Char) :
    splitOnChar c (c :: l) = [] :: splitOnChar c l := by
  simp [splitOnChar]

theorem splitOnChar_ne_nil (c : Char) (l : List Char) : splitOnChar c l ≠ [] := by
  cases l with
  | nil => simp [splitOnChar]
  | cons x xs =>
    by_cases h : x = c <;> simp [splitOnChar, h]

theorem splitOnChar_append_no (c : Char) (xs ys : List Char)
    (h : listHasChar xs c = false) :
    splitOnChar c (xs ++ ys) =
      (xs ++ (splitOnChar c ys).headD []) :: (splitOnChar c ys).tail := by
  induction xs with
  | nil =>
    show splitOnChar c ys = _
    cases hr : splitOnChar c ys with
    | nil => exact absurd hr (splitOnChar_ne_nil c ys)
    | cons a l => rfl
  | cons x xs ih =>
    unfold listHasChar at h
    rw [Bool.or_eq_false_iff] at h
    obtain ⟨hx, hxs⟩ := h
    have hxc : ¬ x = c := by
      intro he
      rw [he] at hx
      simp at hx
    show splitOnChar c (x :: (xs ++ ys)) = _
    rw [show splitOnChar c (x :: (xs ++ ys)) =
      (if x = c then [] :: splitOnChar c (xs ++ ys)
       else (x :: (splitOnChar c (xs ++ ys)).headD []) ::
         (splitOnChar c (xs ++ ys)).tail) from rfl]
    rw [if_neg hxc, ih hxs]
    simp

theorem splitOnChar_no (c : Char) (xs : List Char) (h : listHasChar xs c = false) :
    splitOnChar c xs = [xs] := by
  have hthis := splitOnChar_append_no c xs [] h
  rw [List.append_nil] at hthis
  rw [hthis]
  show (xs ++ ([[]] : List (List Char)).headD []) ::
    ([[]] : List (List Char)).tail = [xs]
  simp

theorem splitOnChar_break (c : Char) (xs ys : List Char)
    (h : listHasChar xs c = false) :
    splitOnChar c (xs ++ c :: ys) = xs :: splitOnChar c ys := by
  rw [splitOnChar_append_no c xs (c :: ys) h, splitOnChar_cons_self]
  simp

theorem listHasChar_append (l m : List Char) (c : Char) :
    listHasChar (l ++ m) c = (listHasChar l c || listHasChar m c) := by
  induction l with
  | nil => rfl
  | cons x xs ih => simp [listHasChar, ih, Bool.or_assoc]

theorem no_sep_chars (l : List Char) (h : l.all fieldCharOk = true) :
    listHasChar l '|' = false ∧ listHasChar l '\t' = false ∧
    listHasChar l '\n' = false := by
  induction l with
  | nil => exact ⟨rfl, rfl, rfl⟩
  | cons x xs ih =>
    rw [List.all_cons, Bool.and_eq_true] at h
    obtain ⟨hx, hxs⟩ := h
    obtain ⟨ih1, ih2, ih3⟩ := ih hxs
    unfold fieldCharOk at hx
    rw [Bool.not_eq_true'] at hx
    simp only [Bool.or_eq_false_iff] at hx
    refine ⟨?_, ?_, ?_⟩
    · show ((x == '|') || listHasChar xs '|') = false
      rw [hx.1.1, ih1]
      rfl
    · show ((x == '\t') || listHasChar xs '\t') = false
      rw [hx.1.2, ih2]
      rfl
    · show ((x == '\n') || listHasChar xs '\n') = false
      rw [hx.2, ih3]
      rfl

theorem dropWhile_id_of_headD (p : Char → Bool) (l : List Char)
    (h : p (l.headD ' ') = false) : l.dropWhile p = l := by
  cases l with
  | nil => rfl
  | cons a as => exact List.dropWhile_cons_of_neg (by simp_all)

theorem headD_append_left (l m : List Char) (d : Char) (h : l ≠ []) :
    (l ++ m).headD d = l.headD d := by
  cases l with
  | nil => exact absurd rfl h
  | cons a as => rfl

theorem jsTrim_id (s : String) (h1 : jsSpace (s.data.headD ' ') = false)
    (h2 : jsSpace (s.data.reverse.headD ' ') = false) : jsTrim s = s := by
  unfold jsTrim
  rw [dropWhile_id_of_headD jsSpace s.data h1,
      dropWhile_id_of_headD jsSpace s.data.reverse h2, List.reverse_reverse]

theorem data_ne_nil_of_head (s : String) (h : jsSpace (s.data.headD ' ') = false) :
    s.data ≠ [] := by
  intro he
  rw [he] at h
  exact absurd h (by decide)

theorem jsTrim_pad (n : String) (h1 : jsSpace (n.data.headD ' ') = false)
    (h2 : jsSpace (n.data.reverse.headD ' ') = false) :
    jsTrim ⟨' ' :: (n.data ++ [' '])⟩ = n := by
  have hnd : n.data ≠ [] := data_ne_nil_of_head n h1
  show (⟨((((' ' :: (n.data ++ [' '])).dropWhile jsSpace).reverse.dropWhile
    jsSpace)).reverse⟩ : String) = n
  rw [List.dropWhile_cons_of_pos (by decide)]
  rw [dropWhile_id_of_headD jsSpace (n.data ++ [' '])
    (by rw [headD_append_left n.data [' '] ' ' hnd]; exact h1)]
  rw [show (n.data ++ [' ']).reverse = ' ' :: n.data.reverse from by simp]
  rw [List.dropWhile_cons_of_pos (by decide)]
  rw [dropWhile_id_of_headD jsSpace n.data.reverse h2, List.reverse_reverse]

theorem beq_empty_eq_false (s : String) (h : s.data ≠ []) : (s == "") = false := by
  rw [beq_eq_false_iff_ne]
  intro he
  apply h
  rw [he]

theorem wfEntry_parts (n v : String) (h : wfEntry n v = true) :
    jsSpace (n.data.headD ' ') = false ∧ jsSpace (n.data.reverse.headD ' ') = false ∧
    jsSpace (v.data.headD ' ') = false ∧ jsSpace (v.data.reverse.headD ' ') = false ∧
    n.data.all fieldCharOk = true ∧ v.data.all fieldCharOk = true ∧
    strContainsSub n "Package" = false ∧
    strContainsSub (renderRow n v) "| Package" = false ∧
    strContainsSub (renderRow n v) "|---" = false := by
  unfold wfEntry at h
  simp only [Bool.and_eq_true, Bool.not_eq_true'] at h
  obtain ⟨⟨⟨⟨⟨⟨⟨⟨h1, h2⟩, h3⟩, h4⟩, h5⟩, h6⟩, h7⟩, h8⟩, h9⟩ := h
  exact ⟨h1, h2, h3, h4, h5, h6, h7, h8, h9⟩

theorem listContainsSub_false_of_not_has (l : List Char) (c : Char)
    (pat : List Char) (h : listHasChar l c = false) :
    listContainsSub l (c :: pat) = false := by
  induction l with
  | nil => rfl
  | cons x xs ih =>
    unfold listHasChar at h
    rw [Bool.or_eq_false_iff] at h
    obtain ⟨hx, hxs⟩ := h
    unfold listContainsSub
    rw [ih hxs, Bool.or_false]
    show (c :: pat).isPrefixOf (x :: xs) = false
    unfold List.isPrefixOf
    rw [show (c == x) = false from by
      rw [beq_eq_false_iff_ne]
      intro he
      rw [he] at hx
      simp at hx]
    rfl

theorem processLine_row (db : IOCDb) (n v : String) (hwf : wfEntry n v = true) :
    processLine (true, db) (renderRow n v) = (true, addPackage db n v) := by
  obtain ⟨h1, h2, h3, h4, hno, hvo, hP, hHP, hHD⟩ := wfEntry_parts n v hwf
  have hnd : n.data ≠ [] := data_ne_nil_of_head n h1
  have hvd : v.data ≠ [] := data_ne_nil_of_head v h3
  obtain ⟨hn1, hn2, hn3⟩ := no_sep_chars n.data hno
  obtain ⟨hv1, hv2, hv3⟩ := no_sep_chars v.data hvo
  unfold processLine
  rw [hHP, hHD, if_neg (by decide : ¬ (((false : Bool) || false) = true))]
  rw [if_pos (show ((true : Bool) && strStartsWith (renderRow n v) "|") = true
    from rfl)]
  have hsplit : splitOnChar '|' (renderRow n v).data =
      [[], ' ' :: (n.data ++ [' ']), ' ' :: (v.data ++ [' ']), []] := by
    show splitOnChar '|'
      ('|' :: ' ' :: (n.data ++ ' ' :: '|' :: ' ' :: (v.data ++ [' ', '|']))) = _
    rw [splitOnChar_cons_self]
    have e1 : ' ' :: (n.data ++ ' ' :: '|' :: ' ' :: (v.data ++ [' ', '|'])) =
        (' ' :: (n.data ++ [' '])) ++ '|' ::
          ((' ' :: (v.data ++ [' '])) ++ '|' :: []) := by
      simp
    rw [e1]
    rw [splitOnChar_break '|' (' ' :: (n.data ++ [' '])) _
      (by rw [show listHasChar (' ' :: (n.data ++ [' '])) '|' =
            ((' ' == '|') || (listHasChar n.data '|' || listHasChar [' '] '|'))
          from by simp [listHasChar, listHasChar_append], hn1]
          decide)]
    rw [splitOnChar_break '|' (' ' :: (v.data ++ [' '])) _
      (by rw [show listHasChar (' ' :: (v.data ++ [' '])) '|' =
            ((' ' == '|') || (listHasChar v.data '|' || listHasChar [' '] '|'))
          from by simp [listHasChar, listHasChar_append], hv1]
          decide)]
    rfl
  rw [hsplit]
  rw [show ([[], ' ' :: (n.data ++ [' ']), ' ' :: (v.data ++ [' ']), []].map
      (fun p => jsTrim ⟨p⟩)) =
    [jsTrim ⟨[]⟩, jsTrim ⟨' ' :: (n.data ++ [' '])⟩,
     jsTrim ⟨' ' :: (v.data ++ [' '])⟩, jsTrim ⟨[]⟩] from rfl]
  rw [jsTrim_pad n h1 h2, jsTrim_pad v h3 h4]
  rw [show jsTrim ⟨([] : List Char)⟩ = "" from rfl]
  rw [List.filter_cons_of_neg (by decide), List.filter_cons_of_pos
      (by rw [beq_empty_eq_false n hnd]; rfl),
    List.filter_cons_of_pos (by rw [beq_empty_eq_false v hvd]; rfl),
    List.filter_cons_of_neg (by decide)]
  rw [show List.filter (fun p => !(p == "")) [] = [] from rfl]
  show (if (!(n == "") && !(v == "") && !strContainsSub n "Package") = true
      then (true, addPackage db n v) else (true, db)) = (true, addPackage db n v)
  rw [if_pos (by rw [beq_empty_eq_false n hnd, beq_empty_eq_false v hvd, hP]; rfl)]

theorem processLine_tab (db : IOCDb) (n v : String) (hwf : wfEntry n v = true) :
    processLine (false, db) (tabLine n v) = (false, addPackage db n v) := by
  obtain ⟨h1, h2, h3, h4, hno, hvo, hP, hHP, hHD⟩ := wfEntry_parts n v hwf
  have hnd : n.data ≠ [] := data_ne_nil_of_head n h1
  have hvd : v.data ≠ [] := data_ne_nil_of_head v h3
  obtain ⟨hn1, hn2, hn3⟩ := no_sep_chars n.data hno
  obtain ⟨hv1, hv2, hv3⟩ := no_sep_chars v.data hvo
  have hnopipe : listHasChar (tabLine n v).data '|' = false := by
    show listHasChar (n.data ++ '\t' :: v.data) '|' = false
    rw [listHasChar_append, hn1]
    rw [show listHasChar ('\t' :: v.data) '|' =
      (('\t' == '|') || listHasChar v.data '|') from rfl, hv1]
    decide
  have hHP' : strContainsSub (tabLine n v) "| Package" = false :=
    listContainsSub_false_of_not_has (tabLine n v).data '|' " Package".data hnopipe
  have hHD' : strContainsSub (tabLine n v) "|---" = false :=
    listContainsSub_false_of_not_has (tabLine n v).data '|' "---".data hnopipe
  unfold processLine
  rw [hHP', hHD', if_neg (by decide : ¬ (((false : Bool) || false) = true))]
  rw [if_neg (show ¬ (((false : Bool) && strStartsWith (tabLine n v) "|") = true)
    from by simp)]
  have htab : strContainsChar (tabLine n v) '\t' = true := by
    show listHasChar (n.data ++ '\t' :: v.data) '\t' = true
    rw [listHasChar_append]
    rw [show listHasChar ('\t' :: v.data) '\t' =
      (('\t' == '\t') || listHasChar v.data '\t') from rfl]
    simp
  rw [if_pos htab]
  have hjt : jsTrim (tabLine n v) = tabLine n v := by
    apply jsTrim_id
    · show jsSpace ((n.data ++ '\t' :: v.data).headD ' ') = false
      rw [headD_append_left n.data ('\t' :: v.data) ' ' hnd]
      exact h1
    · show jsSpace ((n.data ++ '\t' :: v.data).reverse.headD ' ') = false
      rw [show (n.data ++ '\t' :: v.data).reverse =
        (v.data.reverse ++ ['\t']) ++ n.data.reverse from by simp]
      rw [headD_append_left _ _ ' ' (by simp)]
      rw [headD_append_left _ _ ' ' (by simpa using hvd)]
      exact h4
  rw [hjt]
  have hsp : splitOnChar '\t' (tabLine n v).data = [n.data, v.data] := by
    show splitOnChar '\t' (n.data ++ '\t' :: v.data) = _
    rw [splitOnChar_break '\t' n.data v.data hn2, splitOnChar_no '\t' v.data hv2]
  rw [hsp]
  have hjn : jsTrim ⟨n.data⟩ = n := jsTrim_id n h1 h2
  have hjv : jsTrim ⟨v.data⟩ = v := jsTrim_id v h3 h4
  show (if (!(jsTrim ⟨n.data⟩ == "") && !(jsTrim ⟨v.data⟩ == "")) = true
      then (false, addPackage db (jsTrim ⟨n.data⟩) (jsTrim ⟨v.data⟩))
      else (false, db)) = (false, addPackage db n v)
  rw [hjn, hjv]
  rw [if_pos (by rw [beq_empty_eq_false n hnd, beq_empty_eq_false v hvd]; rfl)]

theorem renderRow_no_newline (n v : String) (hn : n.data.all fieldCharOk = true)
    (hv : v.data.all fieldCharOk = true) :
    listHasChar (renderRow n v).data '\n' = false := by
  obtain ⟨-, -, hn3⟩ := no_sep_chars n.data hn
  obtain ⟨-, -, hv3⟩ := no_sep_chars v.data hv
  show listHasChar
    ('|' :: ' ' :: (n.data ++ ' ' :: '|' :: ' ' :: (v.data ++ [' ', '|']))) '\n'
    = false
  simp only [listHasChar, listHasChar_append, hn3, hv3, Bool.or_false,
    Bool.false_or]
  decide

theorem tabLine_no_newline (n v : String) (hn : n.data.all fieldCharOk = true)
    (hv : v.data.all fieldCharOk = true) :
    listHasChar (tabLine n v).data '\n' = false := by
  obtain ⟨-, -, hn3⟩ := no_sep_chars n.data hn
  obtain ⟨-, -, hv3⟩ := no_sep_chars v.data hv
  show listHasChar (n.data ++ '\t' :: v.data) '\n' = false
  simp only [listHasChar, listHasChar_append, hn3, hv3, Bool.or_false,
    Bool.false_or]
  decide

theorem linesOf_joinLines : ∀ ls : List String, ls ≠ [] →
    (∀ l ∈ ls, listHasChar l.data '\n' = false) →
    linesOf (joinLines ls) = ls := by
  intro ls
  induction ls with
  | nil => intro h _; exact absurd rfl h
  | cons l ls ih =>
    intro _ hall
    cases ls with
    | nil =>
      show (splitOnChar '\n' l.data).map (fun x => (⟨x⟩ : String)) = [l]
      rw [splitOnChar_no '\n' l.data (hall l (by simp))]
      rfl
    | cons l' ls' =>
      show (splitOnChar '\n'
        (l.data ++ '\n' :: (joinLines (l' :: ls')).data)).map
          (fun x => (⟨x⟩ : String)) = l :: l' :: ls'
      rw [splitOnChar_break '\n' l.data _ (hall l (by simp))]
      rw [List.map_cons]
      have hrec := ih (by simp)
        (fun x hx => hall x (List.mem_cons_of_mem l hx))
      show (⟨l.data⟩ : String) :: linesOf (joinLines (l' :: ls')) = _
      rw [hrec]

theorem foldl_rows (entries : List (String × String)) :
    ∀ db : IOCDb, (∀ e ∈ entries, wfEntry e.1 e.2 = true) →
    (entries.map (fun e => renderRow e.1 e.2)).foldl processLine (true, db) =
      (true, entries.foldl (fun d e => addPackage d e.1 e.2) db) := by
  induction entries with
  | nil => intro db _; rfl
  | cons e es ih =>
    intro db h
    rw [List.map_cons, List.foldl_cons, List.foldl_cons]
    rw [processLine_row db e.1 e.2 (h e (by simp))]
    exact ih (addPackage db e.1 e.2) (fun x hx => h x (List.mem_cons_of_mem e hx))

theorem foldl_tabs (entries : List (String × String)) :
    ∀ db : IOCDb, (∀ e ∈ entries, wfEntry e.1 e.2 = true) →
    (entries.map (fun e => tabLine e.1 e.2)).foldl processLine (false, db) =
      (false, entries.foldl (fun d e => addPackage d e.1 e.2) db) := by
  induction entries with
  | nil => intro db _; rfl
  | cons e es ih =>
    intro db h
    rw [List.map_cons, List.foldl_cons, List.foldl_cons]
    rw [processLine_tab db e.1 e.2 (h e (by simp))]
    exact ih (addPackage db e.1 e.2) (fun x hx => h x (List.mem_cons_of_mem e hx))

theorem load_renderTable (entries : List (String × String))
    (h : ∀ e ∈ entries, wfEntry e.1 e.2 = true) :
    loadInfectedPackages (renderTable entries) = dbOf entries := by
  have hlines : linesOf (renderTable entries) =
      "| Package | Version |" :: "|---|---|" ::
        entries.map (fun e => renderRow e.1 e.2) := by
    apply linesOf_joinLines
    · simp
    · intro l hl
      rcases List.mem_cons.mp hl with rfl | hl
      · decide
      rcases List.mem_cons.mp hl with rfl | hl
      · decide
      obtain ⟨e, he, hre⟩ := List.mem_map.mp hl
      rw [← hre]
      obtain ⟨-, -, -, -, hn, hv, -, -, -⟩ := wfEntry_parts e.1 e.2 (h e he)
      exact renderRow_no_newline e.1 e.2 hn hv
  show ((linesOf (renderTable entries)).foldl processLine (false, [])).2 =
    dbOf entries
  rw [hlines]
  rw [List.foldl_cons,
    show processLine (false, []) "| Package | Version |" = (true, []) from
      by decide]
  rw [List.foldl_cons,
    show processLine (true, []) "|---|---|" = (true, []) from by decide]
  rw [foldl_rows entries [] h]
  rfl

theorem load_renderTabs (entries : List (String × String))
    (h : ∀ e ∈ entries, wfEntry e.1 e.2 = true) :
    loadInfectedPackages (renderTabs entries) = dbOf entries := by
  cases entries with
  | nil => decide
  | cons e es =>
    have hlines : linesOf (renderTabs (e :: es)) =
        (e :: es).map (fun x => tabLine x.1 x.2) := by
      apply linesOf_joinLines
      · simp
      · intro l hl
        obtain ⟨x, hx, hxe⟩ := List.mem_map.mp hl
        rw [← hxe]
        obtain ⟨-, -, -, -, hn, hv, -, -, -⟩ := wfEntry_parts x.1 x.2 (h x hx)
        exact tabLine_no_newline x.1 x.2 hn hv
    show ((linesOf (renderTabs (e :: es))).foldl processLine (false, [])).2 = _
    rw [hlines]
    rw [foldl_tabs (e :: es) [] h]
    rfl

theorem dbLookup_addPackage_self (db : IOCDb) (n v : String) :
    ∃ vs, dbLookup (addPackage db n v) n = some vs ∧ v ∈ vs := by
  induction db with
  | nil => exact ⟨[v], by simp [addPackage, dbLookup], by simp⟩
  | cons p rest ih =>
    cases p with
    | mk m vs =>
      by_cases hm : m = n
      · subst hm
        by_cases hv : v ∈ vs
        · exact ⟨vs, by simp [addPackage, dbLookup, hv], hv⟩
        · exact ⟨vs ++ [v], by simp [addPackage, dbLookup, hv], by simp⟩
      · obtain ⟨vs', hv1, hv2⟩ := ih
        exact ⟨vs', by simp [addPackage, dbLookup, hm, hv1], hv2⟩

theorem dbLookup_addPackage_mono (db : IOCDb) (m w n v : String)
    (vs : List String) (h : dbLookup db n = some vs) (hv : v ∈ vs) :
    ∃ vs', dbLookup (addPackage db m w) n = some vs' ∧ v ∈ vs' := by
  induction db with
  | nil => simp [dbLookup] at h
  | cons p rest ih =>
    cases p with
    | mk q qs =>
      by_cases hqm : q = m
      · subst hqm
        by_cases hqn : q = n
        · subst hqn
          rw [show dbLookup ((q, qs) :: rest) q = some qs from by
            simp [dbLookup]] at h
          injection h with h
          subst h
          refine ⟨if w ∈ qs then qs else qs ++ [w], by simp [addPackage, dbLookup], ?_⟩
          by_cases hw : w ∈ qs
          · simp [hw, hv]
          · simp [hw, hv]
        · rw [show dbLookup ((q, qs) :: rest) n = dbLookup rest n from by
            simp [dbLookup, hqn]] at h
          exact ⟨vs, by simp [addPackage, dbLookup, hqn, h], hv⟩
      · by_cases hqn : q = n
        · subst hqn
          rw [show dbLookup ((q, qs) :: rest) q = some qs from by
            simp [dbLookup]] at h
          injection h with h
          subst h
          exact ⟨qs, by simp [addPackage, dbLookup, hqm], hv⟩
        · rw [show dbLookup ((q, qs) :: rest) n = dbLookup rest n from by
            simp [dbLookup, hqn]] at h
          obtain ⟨vs', hv1, hv2⟩ := ih h
          exact ⟨vs', by simp [addPackage, dbLookup, hqm, hqn, hv1], hv2⟩

theorem foldl_addPackage_mem :
    ∀ (entries : List (String × String)) (db : IOCDb) (n v : String),
      ((n, v) ∈ entries ∨ ∃ vs, dbLookup db n = some vs ∧ v ∈ vs) →
      ∃ vs,
        dbLookup (entries.foldl (fun d e => addPackage d e.1 e.2) db) n = some vs ∧
        v ∈ vs := by
  intro entries
  induction entries with
  | nil =>
    intro db n v h
    rcases h with h | h
    · simp at h
    · exact h
  | cons e es ih =>
    intro db n v h
    rw [List.foldl_cons]
    rcases h with h | h
    · rcases List.mem_cons.mp h with he | he
      · cases e with
        | mk a b =>
          rw [Prod.mk.injEq] at he
          obtain ⟨ha, hb⟩ := he
          subst ha
          subst hb
          exact ih _ n v (Or.inr (dbLookup_addPackage_self db n v))
      · exact ih _ n v (Or.inl he)
    · obtain ⟨vs, hv1, hv2⟩ := h
      exact ih _ n v (Or.inr (dbLookup_addPackage_mono db e.1 e.2 n v vs hv1 hv2))

/-- C4: the markdown-table and tab-separated renderings of the same
well-formed logical entries load to equal IOC databases; every loaded
`(name, version)` pair is present in the database; and the empty
source loads to the empty database rather than failing. -/
theorem claim_C4 (entries : List (String × String))
    (hwf : ∀ e ∈ entries, wfEntry e.1 e.2 = true) :
    loadInfectedPackages (renderTable entries) =
      loadInfectedPackages (renderTabs entries) ∧
    (∀ e ∈ entries, ∃ vs,
      dbLookup (loadInfectedPackages (renderTable entries)) e.1 = some vs ∧
        e.2 ∈ vs) ∧
    loadInfectedPackages "" = ([] : IOCDb) := by
  rw [load_renderTable entries hwf, load_renderTabs entries hwf]
  refine ⟨rfl, ?_, by decide⟩
  intro e he
  cases e with
  | mk n v => exact foldl_addPackage_mem entries [] n v (Or.inl he)

/-- Witness for C4 on a two-package, three-entry IOC list. -/
theorem claim_C4_witness :
    (∀ e ∈ ([("lodash.custom", "1.0.0"), ("@scope/pkg", "2.3.4"),
        ("lodash.custom", "9.9.9")] : List (String × String)),
      wfEntry e.1 e.2 = true) ∧
    loadInfectedPackages (renderTable
        [("lodash.custom", "1.0.0"), ("@scope/pkg", "2.3.4"),
         ("lodash.custom", "9.9.9")]) =
      loadInfectedPackages (renderTabs
        [("lodash.custom", "1.0.0"), ("@scope/pkg", "2.3.4"),
         ("lodash.custom", "9.9.9")]) :=
  ⟨by decide,
   (claim_C4 [("lodash.custom", "1.0.0"), ("@scope/pkg", "2.3.4"),
      ("lodash.custom", "9.9.9")] (by decide)).1⟩

end WormBuster
